import Mathlib

/-!
Verification of the cruising-analysis pipeline (preprocess.py, compute.py).

The embedding models the pandas-based code over exact rationals (`ℚ`):
every dataframe column becomes a `List` of per-record values, nullable
columns become `Option ℚ`, and the NaN-skipping behaviour of pandas
aggregations (`sum`, `mean`, `median`) is made explicit with `filterMap`.
-/

namespace Cruising

/-- Mean of a list of rationals; `none` on the empty list.  This models the
pandas `Series.mean()` applied to the non-missing values of a column
(pandas skips NaN and returns NaN for an empty/all-NaN column). -/
def ratMean (l : List ℚ) : Option ℚ :=
  if l.isEmpty then none else some (l.sum / l.length)

/-- Truncation toward zero, the semantics of Python `int()` on a float. -/
def pyInt (q : ℚ) : ℤ :=
  if 0 ≤ q then ⌊q⌋ else ⌈q⌉

/-! ### MarkStops: the stop-detector state machine (preprocess.py 80-130) -/

/-- Per-record input of the stop-event loop: the provisional `is_stopped`
flag (preprocess.py 94-102) and the `time_diff_seconds` column value. -/
structure StopSample where
  stopped : Bool
  dt : Option ℚ
deriving DecidableEq

/-- Python `df.loc[s:e, 'is_cruising'] = False`: clear the flag on the
inclusive index range `[s, e]`. -/
def markRange (s e : ℕ) (f : ℕ → Bool) : ℕ → Bool :=
  fun k => if s ≤ k ∧ k ≤ e then false else f k

/-- The `for i in range(len(df))` loop of `MarkStops.process`
(preprocess.py 107-128).  `m` is the number of iterations left, `i` the
current index, `active`/`dur`/`start` are `stop_event_active`,
`current_stop_duration` and `stop_start_index`; `f` is the `is_cruising`
column.  Python's `-1` sentinel for `stop_start_index` is rendered as `0`:
the field is only ever read while `active` is set. -/
def stopLoopGo (th : ℚ) (stopped : ℕ → Bool) (dt : ℕ → ℚ) :
    ℕ → ℕ → Bool → ℚ → ℕ → (ℕ → Bool) → (ℕ → Bool)
  | 0, _, _, _, _, f => f
  | m + 1, i, active, dur, start, f =>
    if stopped i then
      let start' := if active then start else i
      let dur' := (if active then dur else 0) + dt i
      let f' := if th ≤ dur' then markRange start' i f else f
      stopLoopGo th stopped dt m (i + 1) true dur' start' f'
    else
      stopLoopGo th stopped dt m (i + 1) false 0 0 f

/-- The `is_stopped` column value at index `k` (out of range: not stopped). -/
def stoppedAt (xs : List StopSample) (k : ℕ) : Bool :=
  (xs.getD k ⟨false, none⟩).stopped

/-- The `time_diff_seconds` value used by the loop at index `k`: missing
values count as `0.0` (the `pd.notna` guards on preprocess.py 117 and 119). -/
def dtAt (xs : List StopSample) (k : ℕ) : ℚ :=
  ((xs.getD k ⟨false, none⟩).dt).getD 0

/-- The `is_cruising` column after the stop-event loop, starting from the
all-`True` initialisation of preprocess.py 105. -/
def stopLoopFlags (th : ℚ) (xs : List StopSample) : ℕ → Bool :=
  stopLoopGo th (stoppedAt xs) (dtAt xs) xs.length 0 false 0 0 (fun _ => true)

/-- Specification-side predicate: index `j` lies inside a qualifying stop
span, i.e. there are `s ≤ j ≤ e < n` with every sample in `[s, e]`
stopped, `s` the start of its stopped run (`s = 0` or sample `s-1` not
stopped), and the time accumulated over `[s, e]` at least the threshold. -/
def QualAt (th : ℚ) (stopped : ℕ → Bool) (dt : ℕ → ℚ) (n j : ℕ) : Prop :=
  ∃ e, e < n ∧ ∃ s, s ≤ j ∧ j ≤ e ∧
    (∀ k, s ≤ k → k ≤ e → stopped k = true) ∧
    (s = 0 ∨ stopped (s - 1) = false) ∧
    th ≤ ∑ k ∈ Finset.Icc s e, dt k

/-- Qualifying stop span, instantiated to a concrete ride. -/
def QualStop (th : ℚ) (xs : List StopSample) (j : ℕ) : Prop :=
  QualAt th (stoppedAt xs) (dtAt xs) xs.length j

/-- A stopped run reaching a given end index has a unique start: two start
indices whose runs both cover `[·, e]` and both sit at a run boundary must
coincide. -/
lemma runStart_unique (stopped : ℕ → Bool) {s s' e : ℕ} (hse : s ≤ e) (hse' : s' ≤ e)
    (hrun : ∀ k, s ≤ k → k ≤ e → stopped k = true)
    (hrun' : ∀ k, s' ≤ k → k ≤ e → stopped k = true)
    (hrs : s = 0 ∨ stopped (s - 1) = false)
    (hrs' : s' = 0 ∨ stopped (s' - 1) = false) : s = s' := by
  by_contra hne
  rcases Nat.lt_or_ge s s' with h | h
  · have h1 : stopped (s' - 1) = true := hrun (s' - 1) (by omega) (by omega)
    rcases hrs' with h0 | h2
    · omega
    · rw [h1] at h2; exact absurd h2 (by simp)
  · have hlt : s' < s := by omega
    have h1 : stopped (s - 1) = true := hrun' (s - 1) (by omega) (by omega)
    rcases hrs with h0 | h2
    · omega
    · rw [h1] at h2; exact absurd h2 (by simp)

/-- No index lies in a qualifying span of the empty prefix. -/
lemma qualAt_zero (th : ℚ) (stopped : ℕ → Bool) (dt : ℕ → ℚ) (j : ℕ) :
    ¬ QualAt th stopped dt 0 j := by
  rintro ⟨e, he, -⟩
  omega

/-- Extending the processed prefix past a stopped sample `i` adds exactly
the spans that end at `i`; by uniqueness of the run start these are the
spans `[start'', i]` for the current event's start `start''`. -/
lemma qualAt_succ_stopped (th : ℚ) (stopped : ℕ → Bool) (dt : ℕ → ℚ)
    (i start'' : ℕ) (dur'' : ℚ)
    (hst : stopped i = true)
    (hA : start'' ≤ i)
    (hB : ∀ k, start'' ≤ k → k ≤ i → stopped k = true)
    (hC : start'' = 0 ∨ stopped (start'' - 1) = false)
    (hD : dur'' = ∑ k ∈ Finset.Icc start'' i, dt k) (j : ℕ) :
    QualAt th stopped dt (i + 1) j ↔
      QualAt th stopped dt i j ∨ (start'' ≤ j ∧ j ≤ i ∧ th ≤ dur'') := by
  constructor
  · rintro ⟨e, he, s, hsj, hje, hrun, hrs, hsum⟩
    rcases Nat.lt_or_ge e i with hei | hei
    · exact Or.inl ⟨e, hei, s, hsj, hje, hrun, hrs, hsum⟩
    · have hei' : e = i := by omega
      subst hei'
      have hs_eq : s = start'' :=
        runStart_unique stopped (le_trans hsj hje) hA hrun hB hrs hC
      subst hs_eq
      exact Or.inr ⟨hsj, hje, hD ▸ hsum⟩
  · rintro (⟨e, he, s, hsj, hje, hrun, hrs, hsum⟩ | ⟨h1, h2, h3⟩)
    · exact ⟨e, by omega, s, hsj, hje, hrun, hrs, hsum⟩
    · exact ⟨i, by omega, start'', h1, h2, hB, hC, hD ▸ h3⟩

/-- Extending the processed prefix past a non-stopped sample adds no
qualifying span. -/
lemma qualAt_succ_not_stopped (th : ℚ) (stopped : ℕ → Bool) (dt : ℕ → ℚ)
    (i : ℕ) (hst : stopped i = false) (j : ℕ) :
    QualAt th stopped dt (i + 1) j ↔ QualAt th stopped dt i j := by
  constructor
  · rintro ⟨e, he, s, hsj, hje, hrun, hrs, hsum⟩
    rcases Nat.lt_or_ge e i with hei | hei
    · exact ⟨e, hei, s, hsj, hje, hrun, hrs, hsum⟩
    · exfalso
      have h := hrun e (le_trans hsj hje) (le_refl e)
      rw [show e = i by omega, hst] at h
      exact absurd h (by simp)
  · rintro ⟨e, he, s, hsj, hje, hrun, hrs, hsum⟩
    exact ⟨e, by omega, s, hsj, hje, hrun, hrs, hsum⟩

/-- Effect of one range-marking on the flag predicate. -/
lemma markRange_eq_false (s e : ℕ) (f : ℕ → Bool) (j : ℕ) :
    markRange s e f j = false ↔ (s ≤ j ∧ j ≤ e) ∨ f j = false := by
  unfold markRange
  by_cases h : s ≤ j ∧ j ≤ e <;> simp [h]

/-- Loop invariant for the stop-event state machine: if the machine state
correctly describes the processed prefix `[0, i)` — `active` records
whether sample `i-1` was stopped, `start`/`dur` describe the current
stopped run, and `f` clears exactly the indices in qualifying spans of the
prefix — then running the remaining `m` iterations produces the flags of
the prefix `[0, i+m)`. -/
lemma stopLoopGo_spec (th : ℚ) (stopped : ℕ → Bool) (dt : ℕ → ℚ) :
    ∀ (m i : ℕ) (active : Bool) (dur : ℚ) (start : ℕ) (f : ℕ → Bool),
      (active = true ↔ (0 < i ∧ stopped (i - 1) = true)) →
      (active = true → start ≤ i - 1 ∧
        (∀ k, start ≤ k → k ≤ i - 1 → stopped k = true) ∧
        (start = 0 ∨ stopped (start - 1) = false) ∧
        dur = ∑ k ∈ Finset.Icc start (i - 1), dt k) →
      (∀ j, f j = false ↔ QualAt th stopped dt i j) →
      ∀ j, stopLoopGo th stopped dt m i active dur start f j = false ↔
        QualAt th stopped dt (i + m) j := by
  intro m
  induction m with
  | zero =>
    intro i active dur start f _ _ h3 j
    simpa using h3 j
  | succ m ih =>
    intro i active dur start f h1 h2 h3
    by_cases hst : stopped i = true
    · -- the current sample is stopped; `tail` handles the rest of the loop
      -- uniformly once the updated event state is described
      have tail : ∀ (s'' : ℕ) (d'' : ℚ), s'' ≤ i →
          (∀ k, s'' ≤ k → k ≤ i → stopped k = true) →
          (s'' = 0 ∨ stopped (s'' - 1) = false) →
          d'' = ∑ k ∈ Finset.Icc s'' i, dt k →
          ∀ j, stopLoopGo th stopped dt m (i + 1) true d'' s''
              (if th ≤ d'' then markRange s'' i f else f) j = false ↔
            QualAt th stopped dt (i + 1 + m) j := by
        intro s'' d'' hA hB hC hD j
        have hq := qualAt_succ_stopped th stopped dt i s'' d'' hst hA hB hC hD
        refine ih (i + 1) true d'' s'' _ (by simp [hst]) ?_ ?_ j
        · intro _
          simp only [Nat.add_sub_cancel]
          exact ⟨hA, hB, hC, hD⟩
        · intro j'
          by_cases hth : th ≤ d''
          · rw [if_pos hth, markRange_eq_false, hq j', h3 j']
            constructor
            · rintro (⟨ha, hb⟩ | hqq)
              · exact Or.inr ⟨ha, hb, hth⟩
              · exact Or.inl hqq
            · rintro (hqq | ⟨ha, hb, _⟩)
              · exact Or.inr hqq
              · exact Or.inl ⟨ha, hb⟩
          · rw [if_neg hth, hq j', h3 j']
            constructor
            · exact Or.inl
            · rintro (hqq | ⟨_, _, hc⟩)
              · exact hqq
              · exact absurd hc hth
      rcases Bool.eq_false_or_eq_true active with hact | hact
      · -- continuing an active stop event
        subst hact
        obtain ⟨hpos, hprev⟩ := h1.mp rfl
        obtain ⟨hA, hBrun, hC, hDsum⟩ := h2 rfl
        obtain ⟨i', rfl⟩ : ∃ i', i = i' + 1 := ⟨i - 1, by omega⟩
        simp only [Nat.add_sub_cancel] at hA hBrun hDsum
        have hB : ∀ k, start ≤ k → k ≤ i' + 1 → stopped k = true := by
          intro k hk1 hk2
          rcases Nat.lt_or_ge k (i' + 1) with hk | hk
          · exact hBrun k hk1 (by omega)
          · have hk' : k = i' + 1 := by omega
            rwa [hk']
        have hD : dur + dt (i' + 1) = ∑ k ∈ Finset.Icc start (i' + 1), dt k := by
          rw [Finset.sum_Icc_succ_top (by omega : start ≤ i' + 1), hDsum]
        intro j
        rw [show i' + 1 + (m + 1) = i' + 1 + 1 + m by omega]
        have hgoal := tail start (dur + dt (i' + 1)) (by omega) hB hC hD j
        simp only [stopLoopGo, hst, if_true, ite_true, eq_self_iff_true]
        simpa using hgoal
      · -- entering a new stop event at index i
        subst hact
        have hi0 : i = 0 ∨ stopped (i - 1) = false := by
          rcases Nat.eq_zero_or_pos i with h0 | hpos
          · exact Or.inl h0
          · right
            rcases Bool.eq_false_or_eq_true (stopped (i - 1)) with ht | hf
            · exact absurd (h1.mpr ⟨hpos, ht⟩) (by simp)
            · exact hf
        have hB : ∀ k, i ≤ k → k ≤ i → stopped k = true := by
          intro k hk1 hk2
          have hk : k = i := by omega
          rwa [hk]
        intro j
        rw [show i + (m + 1) = i + 1 + m by omega]
        have hgoal := tail i (0 + dt i) (le_refl i) hB hi0 (by simp) j
        simp only [stopLoopGo, hst, if_true, Bool.false_eq_true, if_false,
          ite_true, ite_false, eq_self_iff_true]
        simpa using hgoal
    · -- the current sample is not stopped: the event resets
      have hstf : stopped i = false := by
        rcases Bool.eq_false_or_eq_true (stopped i) with ht | hf
        · exact absurd ht hst
        · exact hf
      have h3' : ∀ j', f j' = false ↔ QualAt th stopped dt (i + 1) j' :=
        fun j' => (h3 j').trans (qualAt_succ_not_stopped th stopped dt i hstf j').symm
      intro j
      rw [show i + (m + 1) = i + 1 + m by omega]
      have hgoal := ih (i + 1) false 0 0 f (by simp [hstf]) (by simp) h3' j
      simp only [stopLoopGo, hstf, Bool.false_eq_true, if_false, ite_false]
      simpa using hgoal

/-- Full characterisation of the stop-detector output: a sample's
`is_cruising` flag is cleared iff it lies in some qualifying stop span. -/
lemma stopLoopFlags_eq_false_iff (th : ℚ) (xs : List StopSample) (j : ℕ) :
    stopLoopFlags th xs j = false ↔ QualStop th xs j := by
  have h := stopLoopGo_spec th (stoppedAt xs) (dtAt xs) xs.length 0 false 0 0
    (fun _ => true) (by simp) (by simp) (fun j' => by
      simp only [Bool.true_eq_false, false_iff]
      exact qualAt_zero th (stoppedAt xs) (dtAt xs) j') j
  simpa using h

example : stopLoopFlags 5 [⟨true, some 3⟩, ⟨true, some 2⟩, ⟨false, some 1⟩] 0 = false := by
  norm_num [stopLoopFlags, stopLoopGo, markRange, stoppedAt, dtAt]

example : stopLoopFlags 5 [⟨true, some 3⟩, ⟨true, some 1⟩, ⟨false, some 1⟩] 0 = true := by
  norm_num [stopLoopFlags, stopLoopGo, markRange, stoppedAt, dtAt]

/-! ### The full MarkStops processor over ride records -/

/-- One ride record as seen by `MarkStops.process`: the columns it reads
(`speed_kmh`, `cadence`, `power`, `time_diff_seconds`) and the two flag
columns it writes (`is_stopped`, `is_cruising`). -/
structure StopRecord where
  speed_kmh : ℚ
  cadence : Option ℚ
  power : Option ℚ
  time_diff_seconds : Option ℚ
  is_stopped : Bool
  is_cruising : Bool
deriving DecidableEq

/-- The provisional stop flag of preprocess.py 94-102: speed below the
threshold, AND-ed with the low-cadence test when the cadence column has any
non-missing value anywhere in the ride (missing cadence read as 1000), and
with the low-power test likewise. -/
def recordIsStopped (stopTh : ℚ) (hasCad hasPow : Bool) (r : StopRecord) : Bool :=
  (decide (r.speed_kmh < stopTh) &&
    (if hasCad then decide (r.cadence.getD 1000 < 10) else true)) &&
    (if hasPow then decide (r.power.getD 1000 < 30) else true)

/-- Stop-loop view of a record: its provisional stop flag and time delta. -/
def stopSampleOf (stopTh : ℚ) (hasCad hasPow : Bool) (r : StopRecord) : StopSample :=
  ⟨recordIsStopped stopTh hasCad hasPow r, r.time_diff_seconds⟩

/-- The `is_stopped` column of a ride, with the whole-column presence tests
for cadence and power (`df['cadence'].notna().any()` etc.). -/
def stopSamples (stopTh : ℚ) (xs : List StopRecord) : List StopSample :=
  xs.map (stopSampleOf stopTh (xs.any fun r => r.cadence.isSome)
    (xs.any fun r => r.power.isSome))

/-- Writing the computed `is_stopped` and `is_cruising` columns back into
the records, starting at index `i`. -/
def markStopsWrite (stopTh : ℚ) (hasCad hasPow : Bool) (flags : ℕ → Bool) :
    ℕ → List StopRecord → List StopRecord
  | _, [] => []
  | i, r :: rest =>
    { r with is_stopped := recordIsStopped stopTh hasCad hasPow r,
             is_cruising := flags i } ::
      markStopsWrite stopTh hasCad hasPow flags (i + 1) rest

/-- `MarkStops.process` (preprocess.py 83-130): compute the provisional
stop flags, set the whole `is_cruising` column to `True`, then run the
stop-event loop and write both columns back. -/
def markStops (stopTh stopDur : ℚ) (xs : List StopRecord) : List StopRecord :=
  markStopsWrite stopTh (xs.any fun r => r.cadence.isSome)
    (xs.any fun r => r.power.isSome)
    (stopLoopFlags stopDur (stopSamples stopTh xs)) 0 xs

/-- Overwriting the incoming `is_cruising` column with arbitrary values
(used to express that `MarkStops` ignores that column). -/
def overrideCruising (g : ℕ → Bool) : ℕ → List StopRecord → List StopRecord
  | _, [] => []
  | i, r :: rest => { r with is_cruising := g i } :: overrideCruising g (i + 1) rest

/-- Default record used to read `is_cruising` out of range (reads as
cruising, so out-of-range indices are trivially unmarked). -/
def defaultStopRecord : StopRecord :=
  { speed_kmh := 0, cadence := none, power := none, time_diff_seconds := none,
    is_stopped := false, is_cruising := true }

/-- The `is_cruising` column value at index `j`. -/
def cruisingFlag (xs : List StopRecord) (j : ℕ) : Bool :=
  (xs.getD j defaultStopRecord).is_cruising

lemma markStopsWrite_length (stopTh : ℚ) (hasCad hasPow : Bool) (flags : ℕ → Bool) :
    ∀ (xs : List StopRecord) (i : ℕ),
      (markStopsWrite stopTh hasCad hasPow flags i xs).length = xs.length := by
  intro xs
  induction xs with
  | nil => intro i; rfl
  | cons r rest ih => intro i; simp [markStopsWrite, ih]

lemma markStopsWrite_cruising (stopTh : ℚ) (hasCad hasPow : Bool) (flags : ℕ → Bool) :
    ∀ (xs : List StopRecord) (i j : ℕ), j < xs.length →
      cruisingFlag (markStopsWrite stopTh hasCad hasPow flags i xs) j = flags (i + j) := by
  intro xs
  induction xs with
  | nil => intro i j hj; simp at hj
  | cons r rest ih =>
    intro i j hj
    cases j with
    | zero => simp [markStopsWrite, cruisingFlag]
    | succ j' =>
      have h := ih (i + 1) j' (by simpa using hj)
      simp only [markStopsWrite, cruisingFlag, List.getD_cons_succ] at h ⊢
      rw [h, show i + 1 + j' = i + (j' + 1) by omega]

lemma overrideCruising_map_stopSampleOf (g : ℕ → Bool) (stopTh : ℚ)
    (hasCad hasPow : Bool) :
    ∀ (xs : List StopRecord) (i : ℕ),
      (overrideCruising g i xs).map (stopSampleOf stopTh hasCad hasPow) =
        xs.map (stopSampleOf stopTh hasCad hasPow) := by
  intro xs
  induction xs with
  | nil => intro i; rfl
  | cons r rest ih =>
    intro i
    simp only [overrideCruising, List.map_cons, ih (i + 1)]
    rfl

lemma overrideCruising_any_cadence (g : ℕ → Bool) :
    ∀ (xs : List StopRecord) (i : ℕ),
      ((overrideCruising g i xs).any fun r => r.cadence.isSome) =
        (xs.any fun r => r.cadence.isSome) := by
  intro xs
  induction xs with
  | nil => intro i; rfl
  | cons r rest ih =>
    intro i
    simp only [overrideCruising, List.any_cons, ih (i + 1)]

lemma overrideCruising_any_power (g : ℕ → Bool) :
    ∀ (xs : List StopRecord) (i : ℕ),
      ((overrideCruising g i xs).any fun r => r.power.isSome) =
        (xs.any fun r => r.power.isSome) := by
  intro xs
  induction xs with
  | nil => intro i; rfl
  | cons r rest ih =>
    intro i
    simp only [overrideCruising, List.any_cons, ih (i + 1)]

lemma markStopsWrite_overrideCruising (stopTh : ℚ) (hasCad hasPow : Bool)
    (flags g : ℕ → Bool) :
    ∀ (xs : List StopRecord) (i i' : ℕ),
      markStopsWrite stopTh hasCad hasPow flags i (overrideCruising g i' xs) =
        markStopsWrite stopTh hasCad hasPow flags i xs := by
  intro xs
  induction xs with
  | nil => intro i i'; rfl
  | cons r rest ih =>
    intro i i'
    simp only [overrideCruising, markStopsWrite, ih (i + 1) (i' + 1)]
    rfl

/-- Claim C1.  Stop-detector state machine: for a time-ordered ride the
stop-event loop clears `is_cruising` at exactly the indices lying in a
qualifying stop span — a maximal-start run of consecutive stopped samples
whose accumulated `time_diff_seconds` from the run's start through some
index at or after the sample reaches `stop_duration_seconds`.  In
particular the marking is retroactive over the whole span, the event
resets at the first non-stopped sample (run-boundary condition), and a
span whose accumulated duration never reaches the threshold leaves
`is_cruising` untouched. -/
theorem stop_detector_retroactive_span_marking (th : ℚ) (xs : List StopSample) (j : ℕ) :
    stopLoopFlags th xs j = false ↔ QualStop th xs j :=
  stopLoopFlags_eq_false_iff th xs j

/-- Claim C10.  At the start of `MarkStops` the whole `is_cruising` column
is reset to `True`: the output is independent of the incoming
`is_cruising` values, and a sample not covered by any qualifying stop
event comes out with `is_cruising = True` regardless of its input flag. -/
theorem mark_stops_discards_incoming_cruising (stopTh stopDur : ℚ)
    (xs : List StopRecord) (g : ℕ → Bool) :
    markStops stopTh stopDur (overrideCruising g 0 xs) = markStops stopTh stopDur xs ∧
    ∀ j, ¬ QualStop stopDur (stopSamples stopTh xs) j →
      cruisingFlag (markStops stopTh stopDur xs) j = true := by
  constructor
  · unfold markStops stopSamples
    rw [overrideCruising_any_cadence, overrideCruising_any_power,
      overrideCruising_map_stopSampleOf, markStopsWrite_overrideCruising]
  · intro j hq
    rcases Nat.lt_or_ge j xs.length with hj | hj
    · have h := markStopsWrite_cruising stopTh (xs.any fun r => r.cadence.isSome)
        (xs.any fun r => r.power.isSome)
        (stopLoopFlags stopDur (stopSamples stopTh xs)) xs 0 j hj
      unfold markStops
      rw [h]
      simp only [Nat.zero_add]
      rcases Bool.eq_false_or_eq_true (stopLoopFlags stopDur (stopSamples stopTh xs) j)
        with ht | hf
      · exact ht
      · exact absurd ((stopLoopFlags_eq_false_iff stopDur (stopSamples stopTh xs) j).mp hf) hq
    · unfold markStops cruisingFlag
      rw [List.getD_eq_default]
      · rfl
      · rw [markStopsWrite_length]
        exact hj

/-- Witness for C10 at a concrete one-record ride whose sample is not
stopped (speed 10 km/h against threshold 2): no qualifying span exists, so
the record comes out cruising. -/
theorem mark_stops_discards_incoming_cruising_witness :
    cruisingFlag (markStops 2 5
      [{ speed_kmh := 10, cadence := none, power := none,
         time_diff_seconds := some 1, is_stopped := false, is_cruising := false }]) 0 = true := by
  refine (mark_stops_discards_incoming_cruising 2 5 _ (fun _ => false)).2 0 ?_
  rintro ⟨e, he, s, hsj, hje, hrun, hrs, hsum⟩
  have he0 : e = 0 := by
    simp only [stopSamples, List.length_map, List.length_cons, List.length_nil] at he
    omega
  subst he0
  have h := hrun 0 (by omega) (by omega)
  norm_num [stopSamples, stoppedAt, stopSampleOf, recordIsStopped] at h

/-! ### MarkNonCruising: the classifier passes (preprocess.py 196-231) -/

/-- One ride record as seen by `MarkNonCruising.process`: the columns it
reads and the `is_cruising` flag it narrows. -/
structure CruiseRecord where
  speed_kmh : ℚ
  acceleration : ℚ
  speed_rolling_std_kmh : ℚ
  is_cruising : Bool
deriving DecidableEq

/-- The adaptive baseline of preprocess.py 211-218: mean rolling speed
standard deviation over currently-cruising samples; over all samples when
no sample is cruising; the constant 0.5 when that is still undefined. -/
def avgSpeedStdCruising (xs : List CruiseRecord) : ℚ :=
  let m := if 0 < (xs.filter fun r => r.is_cruising).length then
      ratMean ((xs.filter fun r => r.is_cruising).map fun r => r.speed_rolling_std_kmh)
    else ratMean (xs.map fun r => r.speed_rolling_std_kmh)
  m.getD (1 / 2)

/-- preprocess.py 221: clear `is_cruising` where `|acceleration|` exceeds
the threshold. -/
def accelPass (aTh : ℚ) (xs : List CruiseRecord) : List CruiseRecord :=
  xs.map fun r => if aTh < |r.acceleration| then { r with is_cruising := false } else r

/-- preprocess.py 226: clear `is_cruising` where the rolling speed standard
deviation exceeds the adaptive threshold. -/
def stdPass (thStd : ℚ) (xs : List CruiseRecord) : List CruiseRecord :=
  xs.map fun r => if thStd < r.speed_rolling_std_kmh then { r with is_cruising := false } else r

/-- preprocess.py 229: clear `is_cruising` below the minimum cruising speed. -/
def minSpeedPass (minS : ℚ) (xs : List CruiseRecord) : List CruiseRecord :=
  xs.map fun r => if r.speed_kmh < minS then { r with is_cruising := false } else r

/-- `MarkNonCruising.process` (preprocess.py 199-231): the baseline and the
threshold are computed once, before the three masking passes run. -/
def markNonCruising (aTh factor minS : ℚ) (xs : List CruiseRecord) : List CruiseRecord :=
  let avg := avgSpeedStdCruising xs
  let thStd := if 1 / 100 < avg then avg * factor else factor
  minSpeedPass minS (stdPass thStd (accelPass aTh xs))

/-- Default record used to read `is_cruising` out of range. -/
def defaultCruiseRecord : CruiseRecord :=
  { speed_kmh := 0, acceleration := 0, speed_rolling_std_kmh := 0, is_cruising := true }

/-- The `is_cruising` value of the classifier records at index `j`. -/
def cruiseFlag (xs : List CruiseRecord) (j : ℕ) : Bool :=
  (xs.getD j defaultCruiseRecord).is_cruising

lemma cruiseFlag_ite_map (P : CruiseRecord → Prop) [DecidablePred P]
    (xs : List CruiseRecord) (j : ℕ) :
    cruiseFlag (xs.map fun r => if P r then { r with is_cruising := false } else r) j = true →
      cruiseFlag xs j = true := by
  intro h
  rcases Nat.lt_or_ge j xs.length with hj | hj
  · unfold cruiseFlag at h ⊢
    rw [List.getD_eq_getElem?_getD, List.getElem?_map,
      List.getElem?_eq_getElem hj] at h
    rw [List.getD_eq_getElem?_getD, List.getElem?_eq_getElem hj]
    simp only [Option.map_some', Option.getD_some] at h ⊢
    by_cases hP : P xs[j]
    · rw [if_pos hP] at h
      exact absurd h (by simp)
    · rwa [if_neg hP] at h
  · unfold cruiseFlag
    rw [List.getD_eq_default _ _ hj]
    rfl

lemma cruiseFlag_ite_map_false (P : CruiseRecord → Prop) [DecidablePred P]
    (xs : List CruiseRecord) (j : ℕ) (h : cruiseFlag xs j = false) (hj : j < xs.length) :
    cruiseFlag (xs.map fun r => if P r then { r with is_cruising := false } else r) j = false := by
  unfold cruiseFlag at h ⊢
  rw [List.getD_eq_getElem?_getD, List.getElem?_map, List.getElem?_eq_getElem hj]
  rw [List.getD_eq_getElem?_getD, List.getElem?_eq_getElem hj] at h
  simp only [Option.map_some', Option.getD_some] at h ⊢
  by_cases hP : P xs[j]
  · rw [if_pos hP]
  · rwa [if_neg hP]

lemma cruiseFlag_ite_map_triggered (P : CruiseRecord → Prop) [DecidablePred P]
    (xs : List CruiseRecord) (j : ℕ) (hj : j < xs.length) (hP : P (xs.getD j defaultCruiseRecord)) :
    cruiseFlag (xs.map fun r => if P r then { r with is_cruising := false } else r) j = false := by
  unfold cruiseFlag
  rw [List.getD_eq_getElem?_getD, List.getElem?_map, List.getElem?_eq_getElem hj]
  rw [List.getD_eq_getElem?_getD, List.getElem?_eq_getElem hj] at hP
  simp only [Option.map_some', Option.getD_some] at hP ⊢
  rw [if_pos hP]

lemma accelPass_length (aTh : ℚ) (xs : List CruiseRecord) :
    (accelPass aTh xs).length = xs.length := by
  simp [accelPass]

lemma accelPass_std (aTh : ℚ) (xs : List CruiseRecord) (j : ℕ) (hj : j < xs.length) :
    ((accelPass aTh xs).getD j defaultCruiseRecord).speed_rolling_std_kmh =
      (xs.getD j defaultCruiseRecord).speed_rolling_std_kmh := by
  unfold accelPass
  rw [List.getD_eq_getElem?_getD, List.getElem?_map, List.getElem?_eq_getElem hj,
    List.getD_eq_getElem?_getD, List.getElem?_eq_getElem hj]
  simp only [Option.map_some', Option.getD_some]
  by_cases hP : aTh < |xs[j].acceleration|
  · rw [if_pos hP]
  · rw [if_neg hP]

/-- Claim C3.  Monotonic tightening: each classifier pass of
`MarkNonCruising` (acceleration, speed variability, minimum speed), and
their composition, can only turn `is_cruising` off relative to its value
entering the pass, never on. -/
theorem classifier_monotone_tightening (aTh factor minS : ℚ)
    (xs : List CruiseRecord) (j : ℕ) :
    (cruiseFlag (accelPass aTh xs) j = true → cruiseFlag xs j = true) ∧
    (∀ thStd : ℚ, cruiseFlag (stdPass thStd xs) j = true → cruiseFlag xs j = true) ∧
    (cruiseFlag (minSpeedPass minS xs) j = true → cruiseFlag xs j = true) ∧
    (cruiseFlag (markNonCruising aTh factor minS xs) j = true → cruiseFlag xs j = true) := by
  refine ⟨?_, ?_, ?_, ?_⟩
  · exact cruiseFlag_ite_map (fun r => aTh < |r.acceleration|) xs j
  · intro thStd
    exact cruiseFlag_ite_map (fun r => thStd < r.speed_rolling_std_kmh) xs j
  · exact cruiseFlag_ite_map (fun r => r.speed_kmh < minS) xs j
  · intro h
    unfold markNonCruising at h
    have h1 := cruiseFlag_ite_map (fun r => r.speed_kmh < minS) _ j h
    have h2 := cruiseFlag_ite_map
      (fun r => (if 1 / 100 < avgSpeedStdCruising xs then avgSpeedStdCruising xs * factor
        else factor) < r.speed_rolling_std_kmh) _ j h1
    exact cruiseFlag_ite_map (fun r => aTh < |r.acceleration|) xs j h2

/-- Concrete classifier records used by witnesses: a calm record, a calm
record with moderate rolling deviation, and one with a high deviation. -/
def cruiseRecA : CruiseRecord :=
  { speed_kmh := 20, acceleration := 0, speed_rolling_std_kmh := 0, is_cruising := true }

def cruiseRecB : CruiseRecord :=
  { speed_kmh := 20, acceleration := 0, speed_rolling_std_kmh := 5, is_cruising := true }

def cruiseRecC : CruiseRecord :=
  { speed_kmh := 20, acceleration := 0, speed_rolling_std_kmh := 100, is_cruising := true }

/-- Witness for C3 at a concrete one-record ride that survives all passes. -/
theorem classifier_monotone_tightening_witness :
    cruiseFlag (markNonCruising (3/2) (3/2) 10 [cruiseRecA]) 0 = true ∧
    cruiseFlag [cruiseRecA] 0 = true := by
  have hpre : cruiseFlag (markNonCruising (3/2) (3/2) 10 [cruiseRecA]) 0 = true := by
    norm_num [markNonCruising, avgSpeedStdCruising, ratMean, accelPass, stdPass,
      minSpeedPass, cruiseFlag, List.filter, cruiseRecA]
  exact ⟨hpre, (classifier_monotone_tightening (3/2) (3/2) 10 _ 0).2.2.2 hpre⟩

/-- Claim C9.  The adaptive variability baseline equals the mean of
`speed_rolling_std_kmh` over cruising samples, falling back to the mean
over all samples, then to 0.5; the threshold is `baseline * factor` when
the baseline exceeds 0.01 and `factor` otherwise; and every sample whose
rolling standard deviation exceeds the threshold is marked non-cruising. -/
theorem adaptive_variability_threshold (aTh factor minS : ℚ) (xs : List CruiseRecord) :
    avgSpeedStdCruising xs =
      (if (xs.any fun r => r.is_cruising) then
        ((xs.filter fun r => r.is_cruising).map fun r => r.speed_rolling_std_kmh).sum /
          (((xs.filter fun r => r.is_cruising).map fun r => r.speed_rolling_std_kmh).length : ℚ)
      else if xs.isEmpty then 1 / 2
      else ((xs.map fun r => r.speed_rolling_std_kmh).sum /
        ((xs.map fun r => r.speed_rolling_std_kmh).length : ℚ))) ∧
    ∀ j, j < xs.length →
      (if 1 / 100 < avgSpeedStdCruising xs then avgSpeedStdCruising xs * factor
        else factor) < (xs.getD j defaultCruiseRecord).speed_rolling_std_kmh →
      cruiseFlag (markNonCruising aTh factor minS xs) j = false := by
  constructor
  · unfold avgSpeedStdCruising
    by_cases hany : (xs.any fun r => r.is_cruising) = true
    · obtain ⟨r, hr, hp⟩ := List.any_eq_true.mp hany
      have hfil : (xs.filter fun r => r.is_cruising) ≠ [] := by
        intro hnil
        have hmem := (List.filter_eq_nil_iff.mp hnil) r hr
        rw [hp] at hmem
        exact hmem rfl
      have hpos : 0 < (xs.filter fun r => r.is_cruising).length :=
        List.length_pos.mpr hfil
      rw [if_pos hpos, if_pos hany]
      rw [ratMean, if_neg (by simp [List.isEmpty_iff, List.map_eq_nil_iff, hfil])]
      rfl
    · have hfil : (xs.filter fun r => r.is_cruising) = [] := by
        rw [List.filter_eq_nil_iff]
        intro a ha
        rcases Bool.eq_false_or_eq_true a.is_cruising with hT | hF
        · exact absurd (List.any_eq_true.mpr ⟨a, ha, hT⟩) hany
        · simp [hF]
      rw [if_neg (by simp [hfil]), if_neg hany]
      by_cases hnil : xs = []
      · subst hnil
        simp [ratMean]
      · rw [if_neg (by simp [List.isEmpty_iff, hnil])]
        rw [ratMean, if_neg (by simp [List.isEmpty_iff, List.map_eq_nil_iff, hnil])]
        rfl
  · intro j hj hstd
    unfold markNonCruising
    apply cruiseFlag_ite_map_false
    · apply cruiseFlag_ite_map_triggered
      · rw [accelPass_length]
        exact hj
      · rwa [accelPass_std aTh xs j hj]
    · simp [stdPass, accelPass_length, hj]

/-- Witness for C9: in a two-record ride with baseline 52.5 and factor 1,
the record with rolling deviation 100 is marked non-cruising. -/
theorem adaptive_variability_threshold_witness :
    cruiseFlag (markNonCruising (3/2) 1 10 [cruiseRecB, cruiseRecC]) 1 = false := by
  refine (adaptive_variability_threshold (3/2) 1 10 _).2 1 (by norm_num) ?_
  norm_num [avgSpeedStdCruising, ratMean, List.filter, cruiseRecB, cruiseRecC,
    defaultCruiseRecord]

/-! ### CruisingSpeedCalculator (compute.py 13-79) -/

/-- One processed record as seen by the cruising-speed calculator. -/
structure SpeedRecord where
  speed_kmh : ℚ
  time_diff_seconds : Option ℚ
  is_cruising : Bool
deriving DecidableEq

/-- The three result shapes of `CruisingSpeedCalculator.calculate`:
`failNoCruising` is the `{success: False, message: 'No cruising data
identified'}` dictionary, `failAbnormalTime` the `{success: False,
message: 'Abnormal total cruising time'}` dictionary carrying the
best-effort unweighted `avg_speed`, and `ok` the success dictionary with
`cruising_speed`, `avg_speed`, `cruising_points`, `total_points` and
`cruising_time_seconds`. -/
inductive CruisingResult where
  | failNoCruising : CruisingResult
  | failAbnormalTime (avg_speed : Option ℚ) : CruisingResult
  | ok (cruising_speed avg_speed : ℚ) (cruising_points total_points : ℕ)
      (cruising_time_seconds : ℚ) : CruisingResult
deriving DecidableEq

/-- `CruisingSpeedCalculator.calculate` (compute.py 25-79).  The pandas
sums skip missing values, hence the `filterMap`s; in the success branch
the cruising subset is non-empty, so its pandas mean is written directly
as sum over length. -/
def cruisingCalculate (xs : List SpeedRecord) : CruisingResult :=
  let cruising := xs.filter fun r => r.is_cruising
  if cruising.isEmpty then CruisingResult.failNoCruising
  else
    let total := (cruising.filterMap fun r => r.time_diff_seconds).sum
    if total ≤ 0 then
      CruisingResult.failAbnormalTime (ratMean (cruising.map fun r => r.speed_kmh))
    else
      CruisingResult.ok
        ((cruising.filterMap fun r => r.time_diff_seconds.map fun d => r.speed_kmh * d).sum
          / total)
        ((cruising.map fun r => r.speed_kmh).sum
          / ((cruising.map fun r => r.speed_kmh).length : ℚ))
        cruising.length xs.length total

/-- Claim C2.  Calculator contract: empty cruising subset fails with the
no-cruising message; non-empty subset with non-positive total time fails
with the abnormal-time message while reporting the unweighted mean speed;
positive total time succeeds with the time-weighted mean
`sum(speed_kmh * dt) / sum(dt)` over exactly the cruising subset. -/
theorem cruising_speed_contract (xs : List SpeedRecord) :
    ((xs.filter fun r => r.is_cruising) = [] →
      cruisingCalculate xs = CruisingResult.failNoCruising) ∧
    ((xs.filter fun r => r.is_cruising) ≠ [] →
      ((xs.filter fun r => r.is_cruising).filterMap fun r => r.time_diff_seconds).sum ≤ 0 →
      cruisingCalculate xs = CruisingResult.failAbnormalTime
        (some (((xs.filter fun r => r.is_cruising).map fun r => r.speed_kmh).sum
          / (((xs.filter fun r => r.is_cruising).map fun r => r.speed_kmh).length : ℚ)))) ∧
    (0 < ((xs.filter fun r => r.is_cruising).filterMap fun r => r.time_diff_seconds).sum →
      cruisingCalculate xs = CruisingResult.ok
        (((xs.filter fun r => r.is_cruising).filterMap fun r =>
            r.time_diff_seconds.map fun d => r.speed_kmh * d).sum
          / ((xs.filter fun r => r.is_cruising).filterMap fun r => r.time_diff_seconds).sum)
        (((xs.filter fun r => r.is_cruising).map fun r => r.speed_kmh).sum
          / (((xs.filter fun r => r.is_cruising).map fun r => r.speed_kmh).length : ℚ))
        (xs.filter fun r => r.is_cruising).length xs.length
        ((xs.filter fun r => r.is_cruising).filterMap fun r => r.time_diff_seconds).sum) := by
  refine ⟨?_, ?_, ?_⟩
  · intro h
    simp [cruisingCalculate, h]
  · intro h1 h2
    unfold cruisingCalculate
    rw [if_neg (by simp [List.isEmpty_iff, h1]), if_pos h2]
    rw [ratMean, if_neg (by simp [List.isEmpty_iff, List.map_eq_nil_iff, h1])]
  · intro h
    have h1 : (xs.filter fun r => r.is_cruising) ≠ [] := by
      intro hnil
      rw [hnil] at h
      simp at h
    unfold cruisingCalculate
    rw [if_neg (by simp [List.isEmpty_iff, h1]), if_neg (by exact not_le.mpr h)]

/-- The five-sample synthetic fixture from the spec's testable properties. -/
def speedFixture : List SpeedRecord :=
  [{ speed_kmh := 10, time_diff_seconds := some 1, is_cruising := true },
   { speed_kmh := 20, time_diff_seconds := some 2, is_cruising := true },
   { speed_kmh := 30, time_diff_seconds := some 1, is_cruising := true },
   { speed_kmh := 40, time_diff_seconds := some 3, is_cruising := false },
   { speed_kmh := 15, time_diff_seconds := some 1, is_cruising := true }]

/-- Witness for C2: on the five-sample fixture the weighted cruising speed
is `(10*1 + 20*2 + 30*1 + 15*1) / 5 = 19` km/h. -/
theorem cruising_speed_contract_witness :
    0 < ((speedFixture.filter fun r => r.is_cruising).filterMap
      fun r => r.time_diff_seconds).sum ∧
    cruisingCalculate speedFixture = CruisingResult.ok 19 (75/4) 4 5 5 := by
  have hpos : 0 < ((speedFixture.filter fun r => r.is_cruising).filterMap
      fun r => r.time_diff_seconds).sum := by
    norm_num [speedFixture, List.filter, List.filterMap_cons, List.filterMap_nil]
  refine ⟨hpos, ?_⟩
  rw [(cruising_speed_contract speedFixture).2.2 hpos]
  norm_num [speedFixture, List.filter, List.filterMap_cons, List.filterMap_nil,
    Option.map_some']

/-! ### NormalizedPowerCalculator (compute.py 125-210) -/

/-- One processed record as seen by the NP calculator. -/
structure PowerRecord where
  power : Option ℚ
  time_diff_seconds : Option ℚ
deriving DecidableEq

/-- Result shapes of `NormalizedPowerCalculator.calculate`: `failNoPower`
is `{success: False, message: 'No power data available'}`, `failShort` the
ride-too-short failure still carrying `avg_power`, and `ok` the success
dictionary.  The success value stores the mean of 4th powers
(`avg_4th_power` of compute.py 191); the reported `normalized_power` is
its real `1/exponent` root, read off by `npValue` below. -/
inductive NPResult where
  | failNoPower : NPResult
  | failShort (avg_power : ℚ) : NPResult
  | ok (avg_fourth_power avg_power : ℚ) : NPResult
deriving DecidableEq

/-- Whether the `time_diff_seconds` column exists: a dataframe column
exists iff some record carries a non-missing value for it. -/
def hasDtColumn (xs : List PowerRecord) : Bool :=
  xs.any fun r => r.time_diff_seconds.isSome

/-- `df['time_diff_seconds'].sum()`, skipping missing values. -/
def dtColumnSum (xs : List PowerRecord) : ℚ :=
  (xs.filterMap fun r => r.time_diff_seconds).sum

/-- Reference average power of compute.py 162-165: time-weighted when the
time column exists with positive sum, otherwise the plain mean of the
non-missing powers (the `getD 0` branch is unreachable in the calculator,
which only computes `avg_power` when some power value exists). -/
def npAvgPower (xs : List PowerRecord) : ℚ :=
  if hasDtColumn xs ∧ 0 < dtColumnSum xs then
    (xs.filterMap fun r => r.power.bind fun p => r.time_diff_seconds.map fun d => p * d).sum
      / dtColumnSum xs
  else (ratMean (xs.filterMap fun r => r.power)).getD 0

/-- `df['time_diff_seconds'].mean() if 'time_diff_seconds' in df.columns
else 1.0` (compute.py 177): the pandas mean skips missing values, and the
column exists iff some value is present, which is exactly when `ratMean`
returns `some`. -/
def npMeanDt (xs : List PowerRecord) : ℚ :=
  (ratMean (xs.filterMap fun r => r.time_diff_seconds)).getD 1

/-- `window_points = max(1, int(window_size / mean_time_diff))`
(compute.py 178); Python `int()` truncates toward zero. -/
def npWindowPoints (windowSeconds : ℚ) (xs : List PowerRecord) : ℕ :=
  (max 1 (pyInt (windowSeconds / npMeanDt xs))).toNat

/-- Values inside the centered rolling window of width `w` at output index
`i`, models pandas `rolling(window=w, min_periods=1, center=True)`: the
window covers indices `[i - (w-1)/2, i + w/2]` (integer division) clipped
to the frame, and missing values are skipped. -/
def rollingWindowVals (powers : List (Option ℚ)) (w i : ℕ) : List ℚ :=
  ((List.range powers.length).filter fun k =>
    decide (i - (w - 1) / 2 ≤ k ∧ k ≤ i + w / 2)).filterMap fun k => powers.getD k none

/-- The `power_30s_avg` column (compute.py 181-185): centered rolling mean
with `min_periods=1`; an all-missing window yields a missing value. -/
def npRollingMeans (powers : List (Option ℚ)) (w : ℕ) : List (Option ℚ) :=
  (List.range powers.length).map fun i => ratMean (rollingWindowVals powers w i)

/-- Steps 2-3 of compute.py 188-191: raise the rolling means to the
exponent and take the mean, skipping missing entries (the `getD 0` branch
is unreachable in the calculator: some power exists, so its own window is
never all-missing). -/
def npAvgFourth (powers : List (Option ℚ)) (w e : ℕ) : ℚ :=
  (ratMean ((npRollingMeans powers w).filterMap fun o => o.map fun q => q ^ e)).getD 0

/-- `NormalizedPowerCalculator.calculate` (compute.py 137-210).  Note the
short-ride guard compares the raw sample count against `window_size`,
which is `np_window_size_seconds` — not against the window size in
samples computed later. -/
def npCalculate (windowSeconds : ℚ) (e : ℕ) (xs : List PowerRecord) : NPResult :=
  if xs.all fun r => r.power.isNone then NPResult.failNoPower
  else if (xs.length : ℚ) < windowSeconds then NPResult.failShort (npAvgPower xs)
  else NPResult.ok
    (npAvgFourth (xs.map fun r => r.power) (npWindowPoints windowSeconds xs) e)
    (npAvgPower xs)

/-- The reported `normalized_power`: the real `1/exponent` root of the
mean of the `exponent`-th powers (compute.py 194), available only on
success. -/
noncomputable def npValue (windowSeconds : ℚ) (e : ℕ) (xs : List PowerRecord) : Option ℝ :=
  match npCalculate windowSeconds e xs with
  | NPResult.ok a _ => some ((a : ℝ) ^ ((1 : ℝ) / e))
  | _ => none

lemma ratMean_of_const {l : List ℚ} {c : ℚ} (h : ∀ x ∈ l, x = c) (hne : l ≠ []) :
    ratMean l = some c := by
  unfold ratMean
  rw [if_neg (by simp [List.isEmpty_iff, hne])]
  have hsum : l.sum = l.length • c := List.sum_eq_card_nsmul l c h
  have hlen : (l.length : ℚ) ≠ 0 := by simpa using hne
  rw [hsum, nsmul_eq_mul, mul_div_cancel_left₀ _ hlen]

lemma filterMap_replicate_some {α β : Type} (f : α → Option β) (a : α) (b : β)
    (h : f a = some b) : ∀ n, (List.replicate n a).filterMap f = List.replicate n b
  | 0 => rfl
  | n + 1 => by
    simp only [List.replicate_succ, List.filterMap_cons, h,
      filterMap_replicate_some f a b h n]

lemma constPowers_getD {P : ℚ} (xs : List PowerRecord)
    (hconst : ∀ r ∈ xs, r.power = some P) (k : ℕ) (hk : k < xs.length) :
    (xs.map fun r => r.power).getD k none = some P := by
  rw [List.getD_eq_getElem?_getD, List.getElem?_map, List.getElem?_eq_getElem hk]
  simp only [Option.map_some', Option.getD_some]
  exact hconst xs[k] (List.getElem_mem hk)

lemma rollingWindowVals_const {P : ℚ} (xs : List PowerRecord)
    (hconst : ∀ r ∈ xs, r.power = some P) (w i : ℕ) (hi : i < xs.length) :
    ratMean (rollingWindowVals (xs.map fun r => r.power) w i) = some P := by
  have hlen : (xs.map fun r => r.power).length = xs.length := by simp
  apply ratMean_of_const
  · intro q hq
    obtain ⟨k, hkmem, hkeq⟩ := List.mem_filterMap.mp hq
    have hk : k < xs.length := by
      have := (List.mem_filter.mp hkmem).1
      simpa [hlen] using List.mem_range.mp this
    rw [constPowers_getD xs hconst k hk] at hkeq
    exact (Option.some.injEq _ _ ▸ hkeq).symm
  · intro hnil
    have hmem : P ∈ rollingWindowVals (xs.map fun r => r.power) w i := by
      apply List.mem_filterMap.mpr
      refine ⟨i, ?_, constPowers_getD xs hconst i hi⟩
      apply List.mem_filter.mpr
      refine ⟨by simpa [hlen] using List.mem_range.mpr hi, ?_⟩
      simp only [decide_eq_true_eq]
      exact ⟨Nat.sub_le i ((w - 1) / 2), Nat.le_add_right i (w / 2)⟩
    rw [hnil] at hmem
    exact absurd hmem (List.not_mem_nil P)

lemma npAvgFourth_const {P : ℚ} (xs : List PowerRecord)
    (hconst : ∀ r ∈ xs, r.power = some P) (w e : ℕ) (hne : xs ≠ []) :
    npAvgFourth (xs.map fun r => r.power) w e = P ^ e := by
  unfold npAvgFourth
  have hmeans : npRollingMeans (xs.map fun r => r.power) w =
      List.replicate xs.length (some P) := by
    unfold npRollingMeans
    have hlen : (xs.map fun r => r.power).length = xs.length := by simp
    rw [hlen]
    have hcongr : ∀ i ∈ List.range xs.length,
        ratMean (rollingWindowVals (xs.map fun r => r.power) w i) = some P := by
      intro i hi
      exact rollingWindowVals_const xs hconst w i (List.mem_range.mp hi)
    rw [List.map_congr_left hcongr]
    rw [List.map_const', List.length_range]
  rw [hmeans, filterMap_replicate_some (fun o => Option.map (fun q => q ^ e) o)
    (some P) (P ^ e) rfl xs.length]
  rw [ratMean_of_const (fun x hx => List.eq_of_mem_replicate hx) ?_]
  · rfl
  · intro hnil
    have : xs.length = 0 := by simpa using congrArg List.length hnil
    exact hne (List.length_eq_zero.mp this)

/-- Claim C4.  Normalized-power round trip: a ride with constant power `P`
(every sample present) and at least `np_window_size_seconds` samples
yields `normalized_power = P` — the rolling mean, 4th power, mean and 4th
root all collapse for constant input. -/
theorem np_constant_power_round_trip (P : ℚ) (xs : List PowerRecord)
    (hP : 0 ≤ P) (hconst : ∀ r ∈ xs, r.power = some P)
    (hlen : (30 : ℚ) ≤ (xs.length : ℚ)) :
    npValue 30 4 xs = some ((P : ℚ) : ℝ) := by
  have hne : xs ≠ [] := by
    intro hnil
    rw [hnil] at hlen
    norm_num at hlen
  have hall : ¬ (xs.all fun r => r.power.isNone) = true := by
    intro hcontra
    obtain ⟨r, hr⟩ := List.exists_mem_of_ne_nil xs hne
    have h1 := List.all_eq_true.mp hcontra r hr
    rw [hconst r hr] at h1
    simp at h1
  have hok : npCalculate 30 4 xs =
      NPResult.ok (P ^ 4) (npAvgPower xs) := by
    unfold npCalculate
    rw [if_neg hall, if_neg (not_lt.mpr hlen)]
    rw [npAvgFourth_const xs hconst (npWindowPoints 30 xs) 4 hne]
  unfold npValue
  rw [hok]
  have hcast : ((P ^ 4 : ℚ) : ℝ) = ((P : ℝ)) ^ ((4 : ℕ) : ℝ) := by
    rw [Real.rpow_natCast]
    push_cast
    ring
  simp only []
  rw [hcast, ← Real.rpow_mul (by exact_mod_cast hP)]
  norm_num

/-- Constant-power 30-sample ride at 1 Hz used as the C4 witness. -/
def constPowerRide : List PowerRecord :=
  List.replicate 30 { power := some 100, time_diff_seconds := some 1 }

/-- Witness for C4: constant 100 W for 30 one-second samples gives NP
exactly 100. -/
theorem np_constant_power_round_trip_witness :
    (∀ r ∈ constPowerRide, r.power = some (100 : ℚ)) ∧
    npValue 30 4 constPowerRide = some (((100 : ℚ) : ℝ)) := by
  have hmem : ∀ r ∈ constPowerRide, r.power = some (100 : ℚ) := by
    intro r hr
    rw [List.eq_of_mem_replicate hr]
  refine ⟨hmem, np_constant_power_round_trip 100 constPowerRide (by norm_num) hmem ?_⟩
  norm_num [constPowerRide]

/-- Claim C5, amended behaviour of the failure contract of
`NormalizedPowerCalculator.calculate`: no-power failure iff every power
value is missing; with power present, the ride fails short exactly when
the raw sample count is below `np_window_size_seconds` itself (not the
window size in samples), still reporting `avg_power`; otherwise it
succeeds; and `avg_power` is the time-weighted mean whenever the time
column exists with positive total. -/
theorem np_failure_contract (windowSeconds : ℚ) (e : ℕ) (xs : List PowerRecord) :
    (npCalculate windowSeconds e xs = NPResult.failNoPower ↔ ∀ r ∈ xs, r.power = none) ∧
    ((∃ r ∈ xs, r.power.isSome = true) → (xs.length : ℚ) < windowSeconds →
      npCalculate windowSeconds e xs = NPResult.failShort (npAvgPower xs)) ∧
    ((∃ r ∈ xs, r.power.isSome = true) → windowSeconds ≤ (xs.length : ℚ) →
      ∃ a p, npCalculate windowSeconds e xs = NPResult.ok a p) ∧
    (hasDtColumn xs ∧ 0 < dtColumnSum xs →
      npAvgPower xs = (xs.filterMap fun r =>
        r.power.bind fun p => r.time_diff_seconds.map fun d => p * d).sum / dtColumnSum xs) := by
  have hallIff : (xs.all fun r => r.power.isNone) = true ↔ ∀ r ∈ xs, r.power = none := by
    rw [List.all_eq_true]
    constructor <;> intro h r hr
    · exact Option.isNone_iff_eq_none.mp (by simpa using h r hr)
    · simp [h r hr]
  refine ⟨?_, ?_, ?_, ?_⟩
  · constructor
    · intro hres
      by_cases hall : (xs.all fun r => r.power.isNone) = true
      · exact hallIff.mp hall
      · exfalso
        unfold npCalculate at hres
        rw [if_neg hall] at hres
        by_cases hlt : (xs.length : ℚ) < windowSeconds
        · rw [if_pos hlt] at hres
          exact absurd hres (by simp)
        · rw [if_neg hlt] at hres
          exact absurd hres (by simp)
    · intro h
      unfold npCalculate
      rw [if_pos (hallIff.mpr h)]
  · rintro ⟨r, hr, hsome⟩ hlt
    have hall : ¬ (xs.all fun r => r.power.isNone) = true := by
      intro hc
      rw [hallIff.mp hc r hr] at hsome
      simp at hsome
    unfold npCalculate
    rw [if_neg hall, if_pos hlt]
  · rintro ⟨r, hr, hsome⟩ hge
    have hall : ¬ (xs.all fun r => r.power.isNone) = true := by
      intro hc
      rw [hallIff.mp hc r hr] at hsome
      simp at hsome
    unfold npCalculate
    rw [if_neg hall, if_neg (not_lt.mpr hge)]
    exact ⟨_, _, rfl⟩
  · intro hcond
    unfold npAvgPower
    rw [if_pos hcond]

/-- A 20-sample ride at 2-second intervals: 40 seconds of riding, window
size 15 samples, but still short of 30 samples. -/
def shortPowerRide : List PowerRecord :=
  List.replicate 20 { power := some 100, time_diff_seconds := some 2 }

lemma shortPowerRide_dts :
    (shortPowerRide.filterMap fun r => r.time_diff_seconds) = List.replicate 20 (2 : ℚ) := by
  simp only [shortPowerRide]
  exact filterMap_replicate_some (fun r : PowerRecord => r.time_diff_seconds) _ (2 : ℚ) rfl 20

lemma shortPowerRide_weighted :
    (shortPowerRide.filterMap fun r =>
      r.power.bind fun p => r.time_diff_seconds.map fun d => p * d) =
      List.replicate 20 ((100 : ℚ) * 2) := by
  simp only [shortPowerRide]
  exact filterMap_replicate_some
    (fun r : PowerRecord => r.power.bind fun p => r.time_diff_seconds.map fun d => p * d)
    { power := some 100, time_diff_seconds := some 2 } ((100 : ℚ) * 2) rfl 20

lemma shortPowerRide_avg : npAvgPower shortPowerRide = 100 := by
  have hsum : dtColumnSum shortPowerRide = 40 := by
    unfold dtColumnSum
    rw [shortPowerRide_dts, List.sum_replicate]
    norm_num
  unfold npAvgPower
  rw [if_pos ?_]
  · rw [shortPowerRide_weighted, hsum, List.sum_replicate]
    norm_num
  · constructor
    · apply List.any_eq_true.mpr
      refine ⟨{ power := some 100, time_diff_seconds := some 2 }, ?_, rfl⟩
      simp only [shortPowerRide]
      exact List.mem_replicate.mpr ⟨by norm_num, rfl⟩
    · rw [hsum]
      norm_num

/-- Counterexample for C5 as frozen: the 20-sample ride at 2-second
intervals has window-in-samples 15 ≤ 20, yet the calculator fails short,
because the guard compares the sample count against
`np_window_size_seconds` (30) directly. -/
theorem np_short_guard_counterexample :
    npCalculate 30 4 shortPowerRide = NPResult.failShort 100 ∧
    ¬ (shortPowerRide.length < npWindowPoints 30 shortPowerRide) := by
  have hnotall : ¬ (shortPowerRide.all fun r => r.power.isNone) = true := by
    intro hcontra
    have hm : ({ power := some 100, time_diff_seconds := some 2 } : PowerRecord)
        ∈ shortPowerRide := by
      simp only [shortPowerRide]
      exact List.mem_replicate.mpr ⟨by norm_num, rfl⟩
    have h := List.all_eq_true.mp hcontra _ hm
    simp at h
  constructor
  · unfold npCalculate
    rw [if_neg hnotall, if_pos (by norm_num [shortPowerRide]), shortPowerRide_avg]
  · have hmean : npMeanDt shortPowerRide = 2 := by
      unfold npMeanDt
      rw [shortPowerRide_dts,
        ratMean_of_const (fun x hx => List.eq_of_mem_replicate hx) (by norm_num)]
      rfl
    have hwin : npWindowPoints 30 shortPowerRide = 15 := by
      unfold npWindowPoints
      rw [hmean]
      have h15 : (30 : ℚ) / 2 = ((15 : ℤ) : ℚ) := by norm_num
      rw [pyInt, if_pos (by norm_num), h15, Int.floor_intCast]
      rfl
    rw [hwin]
    norm_num [shortPowerRide]

/-- Witness for the amended C5 at a one-sample ride with power: the ride
is shorter than 30 samples, so NP fails short while `avg_power` is
reported. -/
theorem np_failure_contract_witness :
    (∃ r ∈ [({ power := some 50, time_diff_seconds := some 1 } : PowerRecord)],
      r.power.isSome = true) ∧
    npCalculate 30 4 [({ power := some 50, time_diff_seconds := some 1 } : PowerRecord)] =
      NPResult.failShort
        (npAvgPower [({ power := some 50, time_diff_seconds := some 1 } : PowerRecord)]) := by
  have hex : ∃ r ∈ [({ power := some 50, time_diff_seconds := some 1 } : PowerRecord)],
      r.power.isSome = true :=
    ⟨({ power := some 50, time_diff_seconds := some 1 } : PowerRecord),
      List.mem_singleton.mpr rfl, rfl⟩
  exact ⟨hex, (np_failure_contract 30 4 _).2.1 hex (by norm_num)⟩

/-! ### Seconds-to-samples window sizing (preprocess.py 177-181, compute.py 177-178) -/

/-- `mean_time_diff` of `CalculateSpeedVariability.process` (preprocess.py
177-179): pandas mean of the time column skipping missing values, replaced
by 1.0 when undefined or non-positive. -/
def stdMeanDt (dts : List (Option ℚ)) : ℚ :=
  match ratMean (dts.filterMap id) with
  | none => 1
  | some m => if m ≤ 0 then 1 else m

/-- `window_size_points_std = max(1, int(rolling_window_speed_std /
mean_time_diff))` (preprocess.py 181). -/
def stdWindowPoints (windowSeconds : ℚ) (dts : List (Option ℚ)) : ℕ :=
  (max 1 (pyInt (windowSeconds / stdMeanDt dts))).toNat

/-- Counterexample for C7 as frozen: with mean interval 1.8 s and a 5 s
window, `5 / 1.8 = 2.78`; Python `int()` truncates to 2 while rounding
gives 3, so the window is not `max(1, round(window_seconds / mean_dt))`. -/
theorem window_sizing_round_counterexample :
    stdWindowPoints 5 [none, some (9/5)] = 2 ∧
    (max 1 (round ((5 : ℚ) / stdMeanDt [none, some (9/5)]))).toNat = 3 := by
  have hmean : stdMeanDt [none, some (9/5)] = 9/5 := by
    unfold stdMeanDt
    have hfm : (([none, some (9/5)] : List (Option ℚ)).filterMap id) = [9/5] := by
      simp [List.filterMap_cons]
    rw [hfm]
    norm_num [ratMean]
  have hdiv : (5 : ℚ) / (9/5) = 25/9 := by norm_num
  constructor
  · unfold stdWindowPoints
    rw [hmean, hdiv, pyInt, if_pos (by norm_num)]
    have hfloor : ⌊(25/9 : ℚ)⌋ = 2 := by
      rw [Int.floor_eq_iff]
      norm_num
    rw [hfloor]
    rfl
  · rw [hmean, hdiv]
    have hround : round (25/9 : ℚ) = 3 := by
      rw [round_eq]
      have h59 : (25/9 : ℚ) + 1/2 = 59/18 := by norm_num
      rw [h59]
      have hfloor : ⌊(59/18 : ℚ)⌋ = 3 := by
        rw [Int.floor_eq_iff]
        norm_num
      rw [hfloor]
    rw [hround]
    rfl

/-- Claim C7, amended: both rolling windows are sized in samples as
`max(1, trunc(window_seconds / mean_time_delta_s))` — truncation toward
zero (Python `int()`), not rounding — where the mean interval is the
observed mean of the non-missing time deltas (with the fallbacks of the
respective call sites). -/
theorem window_sizing_truncation (windowSeconds : ℚ) (dts : List (Option ℚ))
    (xs : List PowerRecord) :
    (0 < (dts.filterMap id).sum / ((dts.filterMap id).length : ℚ) →
      dts.filterMap id ≠ [] →
      stdWindowPoints windowSeconds dts =
        (max 1 (pyInt (windowSeconds /
          ((dts.filterMap id).sum / ((dts.filterMap id).length : ℚ))))).toNat) ∧
    (hasDtColumn xs = true →
      npWindowPoints windowSeconds xs =
        (max 1 (pyInt (windowSeconds /
          ((xs.filterMap fun r => r.time_diff_seconds).sum /
            (((xs.filterMap fun r => r.time_diff_seconds).length : ℚ)))))).toNat) := by
  constructor
  · intro hpos hne
    have hm : stdMeanDt dts = (dts.filterMap id).sum / ((dts.filterMap id).length : ℚ) := by
      unfold stdMeanDt
      rw [ratMean, if_neg (by simp [List.isEmpty_iff, hne])]
      exact if_neg (not_le.mpr hpos)
    unfold stdWindowPoints
    rw [hm]
  · intro hcol
    have hne : (xs.filterMap fun r => r.time_diff_seconds) ≠ [] := by
      obtain ⟨r, hr, hsome⟩ := List.any_eq_true.mp hcol
      obtain ⟨v, hv⟩ := Option.isSome_iff_exists.mp hsome
      intro hnil
      have hmem : v ∈ xs.filterMap fun r => r.time_diff_seconds :=
        List.mem_filterMap.mpr ⟨r, hr, hv⟩
      rw [hnil] at hmem
      exact absurd hmem (List.not_mem_nil v)
    unfold npWindowPoints npMeanDt
    rw [ratMean, if_neg (by simp [List.isEmpty_iff, hne])]
    rfl

/-- Witness for the amended C7 at concrete data: deltas 1 s and 2 s give
mean 1.5 s, so a 5-second window is `max(1, trunc(10/3)) = 3` samples. -/
theorem window_sizing_truncation_witness :
    (0 < ((([some 1, some 2] : List (Option ℚ)).filterMap id).sum /
      ((([some 1, some 2] : List (Option ℚ)).filterMap id).length : ℚ))) ∧
    stdWindowPoints 5 [some 1, some 2] =
      (max 1 (pyInt (5 / ((([some 1, some 2] : List (Option ℚ)).filterMap id).sum /
        ((([some 1, some 2] : List (Option ℚ)).filterMap id).length : ℚ))))).toNat := by
  have hpos : (0 : ℚ) < ((([some 1, some 2] : List (Option ℚ)).filterMap id).sum /
      ((([some 1, some 2] : List (Option ℚ)).filterMap id).length : ℚ)) := by
    norm_num [List.filterMap_cons]
  exact ⟨hpos, (window_sizing_truncation 5 [some 1, some 2] []).1 hpos
    (by simp [List.filterMap_cons])⟩


/-! ### SortAndCalculateTimeDiff (preprocess.py 52-77) -/

/-- Stable ascending sort of the timestamp column (pandas
`sort_values(by='timestamp')` uses a stable sort; only the timestamps are
relevant to the time deltas). -/
def sortTimestamps (ts : List ℚ) : List ℚ := ts.mergeSort

/-- Tail of `df['timestamp'].diff()` with `prev` the previous timestamp. -/
def diffDeltasGo (prev : ℚ) : List ℚ → List (Option ℚ)
  | [] => []
  | t :: rest => some (t - prev) :: diffDeltasGo t rest

/-- `df['timestamp'].diff().dt.total_seconds()`: first entry missing,
entry `i > 0` is `ts[i] - ts[i-1]`. -/
def diffDeltas : List ℚ → List (Option ℚ)
  | [] => []
  | t :: rest => none :: diffDeltasGo t rest

/-- pandas `Series.median()` over the non-missing values: sort, take the
middle element (odd length) or the mean of the two middle elements (even
length); undefined for an empty series. -/
def pandasMedian (l : List ℚ) : Option ℚ :=
  let s := l.mergeSort
  if s.isEmpty then none
  else if s.length % 2 = 1 then s[s.length / 2]?
  else match s[s.length / 2 - 1]?, s[s.length / 2]? with
    | some a, some b => some ((a + b) / 2)
    | _, _ => none

/-- `SortAndCalculateTimeDiff.process` restricted to the
`time_diff_seconds` column (preprocess.py 55-73): sort by timestamp,
diff, and replace the missing first entry — only when the frame has more
than one row — by the median of the remaining deltas when that median is
defined and positive, else by 1.0. -/
def timeDeltas (ts : List ℚ) : List (Option ℚ) :=
  let sorted := sortTimestamps ts
  let deltas := diffDeltas sorted
  if 1 < sorted.length ∧ deltas.getD 0 none = none then
    let common := pandasMedian (deltas.filterMap id)
    let first : ℚ := match common with
      | some m => if 0 < m then m else 1
      | none => 1
    match deltas with
    | [] => []
    | _ :: rest => some first :: rest
  else deltas

lemma diffDeltasGo_length (prev : ℚ) (l : List ℚ) :
    (diffDeltasGo prev l).length = l.length := by
  induction l generalizing prev with
  | nil => rfl
  | cons t rest ih => simp [diffDeltasGo, ih]

lemma diffDeltasGo_nonneg (prev : ℚ) (l : List ℚ)
    (hchain : List.Chain (· ≤ ·) prev l) :
    ∀ o ∈ diffDeltasGo prev l, ∃ d, o = some d ∧ 0 ≤ d := by
  induction l generalizing prev with
  | nil => intro o ho; simp [diffDeltasGo] at ho
  | cons t rest ih =>
    intro o ho
    cases hchain with
    | cons hle hchain' =>
      simp only [diffDeltasGo, List.mem_cons] at ho
      rcases ho with rfl | ho
      · exact ⟨t - prev, rfl, by linarith⟩
      · exact ih t hchain' o ho

lemma pandasMedian_isSome (l : List ℚ) (hne : l ≠ []) :
    ∃ m, pandasMedian l = some m := by
  unfold pandasMedian
  have hslen : l.mergeSort.length = l.length := List.length_mergeSort l
  have hlp : 0 < l.length := List.length_pos.mpr hne
  have hmne : l.mergeSort ≠ [] := by
    intro hnil
    rw [hnil] at hslen
    simp at hslen
    omega
  rw [if_neg (by simp [List.isEmpty_iff, hmne])]
  by_cases hodd : l.mergeSort.length % 2 = 1
  · rw [if_pos hodd]
    have hlt : l.mergeSort.length / 2 < l.mergeSort.length := by omega
    rw [List.getElem?_eq_getElem hlt]
    exact ⟨_, rfl⟩
  · rw [if_neg hodd]
    have h1 : l.mergeSort.length / 2 - 1 < l.mergeSort.length := by omega
    have h2 : l.mergeSort.length / 2 < l.mergeSort.length := by omega
    rw [List.getElem?_eq_getElem h1, List.getElem?_eq_getElem h2]
    exact ⟨_, rfl⟩

/-- Counterexample for C6 as frozen: on a single-sample ride the
normaliser leaves the first `time_delta_s` missing (the fallback
assignment is guarded by `len(df) > 1`), whereas the claim requires it to
be 1.0 for the single-sample ride. -/
theorem normalizer_single_sample_counterexample :
    timeDeltas [(0 : ℚ)] = [none] ∧ (none : Option ℚ) ≠ some (1 : ℚ) := by
  constructor
  · have hs : sortTimestamps [(0 : ℚ)] = [0] := by
      unfold sortTimestamps
      exact List.mergeSort_eq_self (by decide)
    unfold timeDeltas
    rw [hs]
    rfl
  · simp

/-- Claim C6, amended: for rides with at least two samples, after sorting
every delta at `i > 0` is present and non-negative, and the first delta
equals the median of the other deltas (always defined for two or more
samples) when that median is positive, else 1.0.  A single-sample ride
keeps its first delta unset.  -/
theorem normalizer_first_delta (ts : List ℚ) (h2 : 2 ≤ ts.length) :
    (∀ i, 0 < i → i < ts.length →
      ∃ d, (timeDeltas ts).getD i none = some d ∧ 0 ≤ d) ∧
    ∃ m, pandasMedian ((diffDeltas (sortTimestamps ts)).filterMap id) = some m ∧
      (timeDeltas ts).getD 0 none = some (if 0 < m then m else 1) := by
  have hslen : (sortTimestamps ts).length = ts.length := List.length_mergeSort ts
  have hsorted : List.Sorted (· ≤ ·) (sortTimestamps ts) := List.sorted_mergeSort' ts
  obtain ⟨t0, t1, rest, hs⟩ : ∃ t0 t1 rest, sortTimestamps ts = t0 :: t1 :: rest := by
    rcases hsort : sortTimestamps ts with _ | ⟨a, _ | ⟨b, l⟩⟩
    · rw [hsort] at hslen; simp at hslen; omega
    · rw [hsort] at hslen; simp at hslen; omega
    · exact ⟨a, b, l, rfl⟩
  have hchain : List.Chain (· ≤ ·) t0 (t1 :: rest) := by
    rw [List.chain_iff_pairwise]
    rw [hs] at hsorted
    exact hsorted
  have hmed : ∃ m, pandasMedian ((diffDeltas (sortTimestamps ts)).filterMap id) = some m := by
    apply pandasMedian_isSome
    rw [hs]
    simp only [diffDeltas, diffDeltasGo, List.filterMap_cons, id]
    exact List.cons_ne_nil _ _
  obtain ⟨m, hm⟩ := hmed
  have heq : timeDeltas ts =
      some (if 0 < m then m else 1) :: diffDeltasGo t0 (t1 :: rest) := by
    unfold timeDeltas
    rw [hs]
    rw [if_pos ⟨by simp, by simp [diffDeltas]⟩]
    rw [hs] at hm
    simp only [diffDeltas] at hm ⊢
    rw [hm]
  constructor
  · intro i hi0 hilen
    rw [heq]
    obtain ⟨j, rfl⟩ : ∃ j, i = j + 1 := ⟨i - 1, by omega⟩
    rw [List.getD_cons_succ]
    have hjlen : j < (diffDeltasGo t0 (t1 :: rest)).length := by
      rw [diffDeltasGo_length]
      have : (t0 :: t1 :: rest).length = ts.length := by rw [← hs, hslen]
      simp at this
      simp
      omega
    have hmem : (diffDeltasGo t0 (t1 :: rest)).getD j none ∈ diffDeltasGo t0 (t1 :: rest) := by
      rw [List.getD_eq_getElem?_getD, List.getElem?_eq_getElem hjlen]
      exact List.getElem_mem hjlen
    obtain ⟨d, hd, hd0⟩ := diffDeltasGo_nonneg t0 (t1 :: rest) hchain _ hmem
    exact ⟨d, by rw [hd], hd0⟩
  · exact ⟨m, hm, by rw [heq]; rfl⟩

/-- Witness for the amended C6 at timestamps `[0, 1, 3]`. -/
theorem normalizer_first_delta_witness :
    2 ≤ ([(0 : ℚ), 1, 3] : List ℚ).length ∧
    ∃ m, pandasMedian ((diffDeltas (sortTimestamps [(0 : ℚ), 1, 3])).filterMap id) = some m ∧
      (timeDeltas [(0 : ℚ), 1, 3]).getD 0 none = some (if 0 < m then m else 1) :=
  ⟨by norm_num, (normalizer_first_delta [(0 : ℚ), 1, 3] (by norm_num)).2⟩


/-! ### ValidatePowerData (preprocess.py 238-262) -/

/-- preprocess.py 250-254: clamp negative power to 0, then turn values
above the maximum threshold into missing. -/
def validatePowerValue (maxPower : ℚ) (p : Option ℚ) : Option ℚ :=
  match p with
  | none => none
  | some v =>
    let v1 := if v < 0 then 0 else v
    if maxPower < v1 then none else some v1

/-- Index of the nearest non-missing value strictly before `i`, if any. -/
def lastValidIdx (xs : List (Option ℚ)) : ℕ → Option ℕ
  | 0 => none
  | i + 1 => if (xs.getD i none).isSome then some i else lastValidIdx xs i

/-- Search for the first non-missing value at index `j` or later, with
explicit fuel. -/
def findValidIdxFrom (xs : List (Option ℚ)) : ℕ → ℕ → Option ℕ
  | 0, _ => none
  | fuel + 1, j =>
    if (xs.getD j none).isSome then some j else findValidIdxFrom xs fuel (j + 1)

/-- Index of the nearest non-missing value strictly after `i`, if any. -/
def nextValidIdx (xs : List (Option ℚ)) (i : ℕ) : Option ℕ :=
  findValidIdxFrom xs (xs.length - (i + 1)) (i + 1)

/-- Models pandas `Series.interpolate(method='linear', limit=L)` with the
default forward `limit_direction`, at one index: a present value is kept;
a missing value with no earlier valid value stays missing; otherwise it is
filled only when it is among the first `L` missing entries after the last
valid index `p` — linearly between `p` and the next valid index `q` when
one exists, else by repeating the value at `p`. -/
def interpolateAt (xs : List (Option ℚ)) (limit i : ℕ) : Option ℚ :=
  match xs.getD i none with
  | some v => some v
  | none =>
    match lastValidIdx xs i with
    | none => none
    | some p =>
      if i - p ≤ limit then
        match nextValidIdx xs i with
        | some q => (xs.getD p none).bind fun a => (xs.getD q none).map fun b =>
            a + (b - a) * ((i : ℚ) - (p : ℚ)) / ((q : ℚ) - (p : ℚ))
        | none => xs.getD p none
      else none

/-- The whole interpolated column. -/
def interpolateLimit (xs : List (Option ℚ)) (limit : ℕ) : List (Option ℚ) :=
  (List.range xs.length).map fun i => interpolateAt xs limit i

/-- `ValidatePowerData.process` on the power column (preprocess.py
241-262): clean the values, then optionally gap-fill with the bounded
linear interpolation. -/
def validatePower (maxPower : ℚ) (interpolateGaps : Bool) (limit : ℕ)
    (powers : List (Option ℚ)) : List (Option ℚ) :=
  let cleaned := powers.map (validatePowerValue maxPower)
  if interpolateGaps then interpolateLimit cleaned limit else cleaned

lemma lastValidIdx_spec (xs : List (Option ℚ)) (p : ℕ)
    (hsome : (xs.getD p none).isSome = true) :
    ∀ i, p < i → (∀ k, p < k → k < i → xs.getD k none = none) →
      lastValidIdx xs i = some p := by
  intro i
  induction i with
  | zero =>
    intro h _
    exact absurd h (Nat.not_lt_zero p)
  | succ i ih =>
    intro h hgap
    unfold lastValidIdx
    by_cases hpi : p = i
    · subst hpi
      rw [if_pos hsome]
    · have hlt : p < i := by omega
      have hnone : xs.getD i none = none := hgap i hlt (by omega)
      rw [if_neg (by rw [hnone]; simp)]
      exact ih hlt (fun k hk1 hk2 => hgap k hk1 (by omega))

lemma findValidIdxFrom_spec (xs : List (Option ℚ)) (q : ℕ)
    (hsome : (xs.getD q none).isSome = true) :
    ∀ fuel j, j ≤ q → q < j + fuel →
      (∀ k, j ≤ k → k < q → xs.getD k none = none) →
      findValidIdxFrom xs fuel j = some q := by
  intro fuel
  induction fuel with
  | zero =>
    intro j h1 h2 _
    exact absurd h2 (by omega)
  | succ fuel ih =>
    intro j h1 h2 hgap
    unfold findValidIdxFrom
    by_cases hjq : j = q
    · subst hjq
      rw [if_pos hsome]
    · have hlt : j < q := by omega
      rw [if_neg (by rw [hgap j (le_refl j) hlt]; simp)]
      exact ih (j + 1) (by omega) (by omega) (fun k hk1 hk2 => hgap k (by omega) hk2)

lemma interpolateLimit_getD (xs : List (Option ℚ)) (limit i : ℕ) (hi : i < xs.length) :
    (interpolateLimit xs limit).getD i none = interpolateAt xs limit i := by
  unfold interpolateLimit
  rw [List.getD_eq_getElem?_getD, List.getElem?_map, List.getElem?_range hi]
  rfl

/-- The eight-sample power column with an interior gap of six missing
samples between 0 W and 70 W. -/
def powersGap : List (Option ℚ) :=
  [some 0, none, none, none, none, none, none, some 70]

/-- Counterexample for C8 as frozen: with the default limit 5, the gap of
six missing samples is PARTIALLY filled — sample 1 receives the linearly
interpolated value 10 — while only the sample beyond the limit stays
missing, contradicting `every sample inside a longer gap remains
missing`. -/
theorem interpolation_long_gap_counterexample :
    (validatePower 3000 true 5 powersGap).getD 1 none = some 10 ∧
    (validatePower 3000 true 5 powersGap).getD 6 none = none := by
  have hclean : powersGap.map (validatePowerValue 3000) = powersGap := by
    norm_num [powersGap, validatePowerValue]
  have hval : validatePower 3000 true 5 powersGap = interpolateLimit powersGap 5 := by
    unfold validatePower
    rw [hclean]
    rfl
  constructor
  · rw [hval, interpolateLimit_getD powersGap 5 1 (by norm_num [powersGap])]
    norm_num [interpolateAt, lastValidIdx, nextValidIdx, findValidIdxFrom, powersGap]
  · rw [hval, interpolateLimit_getD powersGap 5 6 (by norm_num [powersGap])]
    norm_num [interpolateAt, lastValidIdx, nextValidIdx, findValidIdxFrom, powersGap]

/-- Claim C8, amended: inside an interior gap bounded by valid values at
`p` and `q`, a missing sample at offset `i - p ≤ limit` is filled with
the linear interpolation between the values at `p` and `q` (so gaps no
longer than the limit are filled completely), while a sample at offset
beyond the limit remains missing — long gaps are partially filled up to
the limit, not left fully missing. -/
theorem interpolation_gap_behavior (xs : List (Option ℚ)) (L p i q : ℕ) (a b : ℚ)
    (hpi : p < i) (hiq : i < q) (hq : q < xs.length)
    (ha : xs.getD p none = some a) (hb : xs.getD q none = some b)
    (hgap : ∀ k, p < k → k < q → xs.getD k none = none) :
    (i - p ≤ L →
      (interpolateLimit xs L).getD i none =
        some (a + (b - a) * ((i : ℚ) - (p : ℚ)) / ((q : ℚ) - (p : ℚ)))) ∧
    (L < i - p → (interpolateLimit xs L).getD i none = none) := by
  have hi : i < xs.length := by omega
  have hlast : lastValidIdx xs i = some p :=
    lastValidIdx_spec xs p (by rw [ha]; rfl) i hpi (fun k hk1 hk2 => hgap k hk1 (by omega))
  have hnext : nextValidIdx xs i = some q := by
    unfold nextValidIdx
    exact findValidIdxFrom_spec xs q (by rw [hb]; rfl) (xs.length - (i + 1)) (i + 1)
      (by omega) (by omega) (fun k hk1 hk2 => hgap k (by omega) hk2)
  have hinone : xs.getD i none = none := hgap i hpi hiq
  have hA : interpolateAt xs L i = if i - p ≤ L then
      some (a + (b - a) * ((i : ℚ) - (p : ℚ)) / ((q : ℚ) - (p : ℚ))) else none := by
    unfold interpolateAt
    simp only [hinone, hlast, hnext, ha, hb, Option.some_bind, Option.map_some']
  constructor
  · intro hle
    rw [interpolateLimit_getD xs L i hi, hA, if_pos hle]
  · intro hgt
    rw [interpolateLimit_getD xs L i hi, hA, if_neg (by omega)]

/-- Witness for the amended C8: a one-sample gap between 0 W and 10 W is
filled with the midpoint 5 W. -/
theorem interpolation_gap_behavior_witness :
    1 - 0 ≤ 5 ∧
    (interpolateLimit [some 0, none, some 10] 5).getD 1 none =
      some ((0 : ℚ) + (10 - 0) * ((1 : ℕ) - ((0 : ℕ) : ℚ)) / (((2 : ℕ) : ℚ) - ((0 : ℕ) : ℚ))) := by
  refine ⟨by norm_num, ?_⟩
  exact (interpolation_gap_behavior [some 0, none, some 10] 5 0 1 2 0 10
    (by norm_num) (by norm_num) (by norm_num) rfl rfl
    (fun k hk1 hk2 => by
      have hk : k = 1 := by omega
      rw [hk]
      rfl)).1 (by norm_num)

end Cruising
